import Mathlib

/-!
Verification of the ScaLed enclosing-subgraph extraction and node-labeling
pipeline (utils.py, seal_link_pred.py).

The embedding models:
- IEEE-style float values flowing through the torch label computations
  (finite integers, plus/minus infinity, NaN) as the inductive type FV;
- a sparse weighted adjacency matrix as a function Nat → Nat → Int together
  with an explicit node count n (an entry is an edge iff it is nonzero);
- scipy.sparse.csgraph.shortest_path (directed=False, unweighted=True) as a
  breadth-first ball construction spdist;
- the node-deletion slicing adj[idx,:][:,idx] (idx = all rows but one) as
  delNode, and np.insert(arr, pos, 0) as insert0;
- the k-hop BFS extraction loop of k_hop_subgraph as an explicit state
  machine, with the random subsampling steps abstracted by a sampler
  function parameter.
-/

/-- Float values produced by the torch/numpy distance computations:
finite integral values, ±infinity (scipy shortest_path yields +inf for
unreachable nodes), and NaN. -/
inductive FV where
  | fin : Int → FV
  | inf : FV
  | ninf : FV
  | nan : FV
  deriving DecidableEq, Repr

namespace FV

/-- IEEE addition restricted to the values above. -/
def add : FV → FV → FV
  | nan, _ => nan
  | _, nan => nan
  | inf, ninf => nan
  | ninf, inf => nan
  | inf, _ => inf
  | _, inf => inf
  | ninf, _ => ninf
  | _, ninf => ninf
  | fin a, fin b => fin (a + b)

/-- torch.min: propagates NaN, otherwise the usual order with ±inf. -/
def fmin : FV → FV → FV
  | nan, _ => nan
  | _, nan => nan
  | ninf, _ => ninf
  | _, ninf => ninf
  | inf, b => b
  | a, inf => a
  | fin a, fin b => fin (min a b)

/-- torch.div(x, 2, rounding_mode='trunc'): truncation toward zero. -/
def divT2 : FV → FV
  | fin a => fin (Int.tdiv a 2)
  | inf => inf
  | ninf => ninf
  | nan => nan

/-- torch `% 2` (remainder with the divisor's sign); on ±inf it is NaN. -/
def mod2 : FV → FV
  | fin a => fin (a % 2)
  | inf => nan
  | ninf => nan
  | nan => nan

/-- IEEE multiplication; inf * 0 is NaN. -/
def mul : FV → FV → FV
  | nan, _ => nan
  | _, nan => nan
  | fin a, fin b => fin (a * b)
  | inf, inf => inf
  | ninf, ninf => inf
  | inf, ninf => ninf
  | ninf, inf => ninf
  | inf, fin b => if b = 0 then nan else if 0 < b then inf else ninf
  | fin a, inf => if a = 0 then nan else if 0 < a then inf else ninf
  | ninf, fin b => if b = 0 then nan else if 0 < b then ninf else inf
  | fin a, ninf => if a = 0 then nan else if 0 < a then ninf else inf

/-- Subtract the constant 1 (used for the `- 1` inside the drnl formula). -/
def sub1 : FV → FV
  | fin a => fin (a - 1)
  | inf => inf
  | ninf => ninf
  | nan => nan

/-- IEEE `x > c` against a finite constant: false for NaN. -/
def gtC : FV → Int → Bool
  | fin a, c => decide (c < a)
  | inf, _ => true
  | ninf, _ => false
  | nan, _ => false

def isNan : FV → Bool
  | nan => true
  | _ => false

/-- .to(torch.long); only ever applied to finite values in this pipeline. -/
def toLong : FV → Int
  | fin a => a
  | _ => 0

end FV

/-- Neighbor condition used by scipy shortest_path with directed=False:
the matrix is symmetrized, an edge joins i and j iff either entry is
nonzero. -/
def adjSym (A : Nat → Nat → Int) (i j : Nat) : Prop :=
  A i j ≠ 0 ∨ A j i ≠ 0

instance (A : Nat → Nat → Int) (i j : Nat) : Decidable (adjSym A i j) := by
  unfold adjSym; infer_instance

/-- Nodes at (undirected, unweighted) distance at most k from s, among the
n nodes of the matrix. -/
def ball (A : Nat → Nat → Int) (n s : Nat) : Nat → Finset Nat
  | 0 => {s}
  | k + 1 =>
      ball A n s k ∪
        (Finset.range n).filter (fun j => ∃ i ∈ ball A n s k, adjSym A i j)

/-- scipy.sparse.csgraph.shortest_path(A, directed=False, unweighted=True,
indices=s) evaluated at t: the breadth-first distance from s to t, none when
t is unreachable (scipy reports +inf). -/
def spdist (A : Nat → Nat → Int) (n s t : Nat) : Option Nat :=
  (List.range n).find? (fun k => decide (t ∈ ball A n s k))

/-- The same distance as the float scipy returns: finite or +inf. -/
def spdistF (A : Nat → Nat → Int) (n s t : Nat) : FV :=
  match spdist A n s t with
  | some d => FV.fin d
  | none => FV.inf

/-- adj[idx, :][:, idx] with idx = list(range(v)) + list(range(v+1, n)):
the matrix with row/column v deleted and the higher indices shifted down. -/
def delNode (A : Nat → Nat → Int) (v : Nat) : Nat → Nat → Int :=
  fun i j => A (if i < v then i else i + 1) (if j < v then j else j + 1)

/-- np.insert(arr, pos, 0, axis=0) on a vector of float values. -/
def insert0 (f : Nat → FV) (pos : Nat) : Nat → FV :=
  fun i => if i < pos then f i else if i = pos then FV.fin 0 else f (i - 1)

/-- The canonical swap at the top of the labelers:
src, dst = (dst, src) if src > dst else (src, dst). -/
def drnlSwap (src dst : Nat) : Nat × Nat :=
  if src > dst then (dst, src) else (src, dst)

/-- dist2src of drnl_node_labeling (utils.py lines 176-178), for the
post-swap pair (src < dst): shortest paths on adj_wo_dst from index src,
with a synthetic 0 re-inserted at position dst. -/
def dist2srcArr (A : Nat → Nat → Int) (n src dst : Nat) : Nat → FV :=
  insert0 (fun i => spdistF (delNode A dst) (n - 1) src i) dst

/-- dist2dst of drnl_node_labeling (utils.py lines 180-182): shortest paths
on adj_wo_src from index dst - 1 (dst's index after src is deleted), with a
synthetic 0 re-inserted at position src. -/
def dist2dstArr (A : Nat → Nat → Int) (n src dst : Nat) : Nat → FV :=
  insert0 (fun i => spdistF (delNode A src) (n - 1) (dst - 1) i) src

/-- The drnl formula on a single pair of float distances (utils.py lines
184-188): z = 1 + min(ds, dt) + (d div 2) * (d div 2 + d mod 2 - 1) with
d = ds + dt, in float arithmetic. -/
def drnlRaw (ds dt : FV) : FV :=
  let dist := ds.add dt
  let distOver2 := dist.divT2
  let distMod2 := dist.mod2
  ((FV.fin 1).add (ds.fmin dt)).add (distOver2.mul ((distOver2.add distMod2).sub1))

/-- drnl_node_labeling (utils.py lines 166-193): swap, the two node-deleted
distance arrays, the closed-form label, the forced z[src] = z[dst] = 1,
NaN normalized to 0, cast to long. -/
def drnl_node_labeling (A : Nat → Nat → Int) (n src0 dst0 : Nat) : Nat → Int :=
  fun i =>
    let src := (drnlSwap src0 dst0).1
    let dst := (drnlSwap src0 dst0).2
    let z := drnlRaw (dist2srcArr A n src dst i) (dist2dstArr A n src dst i)
    let z1 := if i = src ∨ i = dst then FV.fin 1 else z
    let z2 := if z1.isNan then FV.fin 0 else z1
    z2.toLong

/-- Stated from the claim: the unweighted shortest-path distance from src
computed on the graph with dst deleted, with a synthetic 0 re-inserted at
position dst.  Expressed at original indices for an arbitrary (unswapped)
pair; src occupies index src (when src < dst) or src - 1 (when dst < src)
in the deleted index space. -/
def claimDist2src (A : Nat → Nat → Int) (n src dst : Nat) : Nat → FV :=
  insert0 (fun i => spdistF (delNode A dst) (n - 1) (if src < dst then src else src - 1) i) dst

/-- Stated from the claim: the distance from dst computed on the graph with
src deleted, with 0 re-inserted at position src. -/
def claimDist2dst (A : Nat → Nat → Int) (n src dst : Nat) : Nat → FV :=
  insert0 (fun i => spdistF (delNode A src) (n - 1) (if dst < src then dst else dst - 1) i) src

lemma drnlRaw_fin (a b : Int) :
    drnlRaw (FV.fin a) (FV.fin b) =
      FV.fin (1 + min a b + Int.tdiv (a + b) 2 * (Int.tdiv (a + b) 2 + (a + b) % 2 - 1)) := rfl

lemma intDiv_natCast (m : Nat) : Int.tdiv ((m : Int)) 2 = ((m / 2 : Nat) : Int) := rfl

lemma intMod_natCast (m : Nat) : ((m : Int)) % 2 = ((m % 2 : Nat) : Int) := rfl

lemma drnlRaw_fin_comm (x y : Int) :
    drnlRaw (FV.fin x) (FV.fin y) = drnlRaw (FV.fin y) (FV.fin x) := by
  rw [drnlRaw_fin, drnlRaw_fin, min_comm, Int.add_comm x y]

/-- Claim C1: for every subgraph, every valid pair src ≠ dst and every node
i outside {src, dst} whose two deleted-graph distances are finite, the drnl
labeler returns exactly
z[i] = 1 + min(dist2src[i], dist2dst[i]) + (d/2) * (d/2 + d mod 2 - 1)
with d = dist2src[i] + dist2dst[i], where dist2src is the distance from src
on the graph with dst deleted (0 re-inserted at dst) and dist2dst the
distance from dst on the graph with src deleted (0 re-inserted at src). -/
theorem drnl_label_formula (A : Nat → Nat → Int) (n src dst i : Nat) (a b : Nat)
    (hne : src ≠ dst) (hisrc : i ≠ src) (hidst : i ≠ dst)
    (ha : claimDist2src A n src dst i = FV.fin a)
    (hb : claimDist2dst A n src dst i = FV.fin b) :
    drnl_node_labeling A n src dst i =
      1 + ((min a b : Nat) : Int) +
        (((a + b) / 2 : Nat) : Int) *
          ((((a + b) / 2 : Nat) : Int) + (((a + b) % 2 : Nat) : Int) - 1) := by
  have hcond : ¬ (i = src ∨ i = dst) := by
    rintro (rfl | rfl) <;> [exact hisrc rfl; exact hidst rfl]
  have hcond' : ¬ (i = dst ∨ i = src) := by
    rintro (rfl | rfl) <;> [exact hidst rfl; exact hisrc rfl]
  rcases Nat.lt_or_ge src dst with h | hge
  · have e1 : claimDist2src A n src dst = dist2srcArr A n src dst := by
      unfold claimDist2src dist2srcArr
      rw [if_pos h]
    have e2 : claimDist2dst A n src dst = dist2dstArr A n src dst := by
      unfold claimDist2dst dist2dstArr
      rw [if_neg (by omega : ¬ dst < src)]
    have hswap : drnlSwap src dst = (src, dst) := by
      unfold drnlSwap
      rw [if_neg (by omega : ¬ src > dst)]
    rw [e1] at ha
    rw [e2] at hb
    simp only [drnl_node_labeling, hswap]
    rw [if_neg hcond, ha, hb, drnlRaw_fin]
    simp only [FV.isNan, Bool.false_eq_true, if_false, FV.toLong]
    rw [← Nat.cast_add a b, intDiv_natCast, intMod_natCast, ← Nat.cast_min]
  · have h : dst < src := by omega
    have e1 : claimDist2src A n src dst = dist2dstArr A n dst src := by
      unfold claimDist2src dist2dstArr
      rw [if_neg (by omega : ¬ src < dst)]
    have e2 : claimDist2dst A n src dst = dist2srcArr A n dst src := by
      unfold claimDist2dst dist2srcArr
      rw [if_pos h]
    have hswap : drnlSwap src dst = (dst, src) := by
      unfold drnlSwap
      rw [if_pos h]
    rw [e1] at ha
    rw [e2] at hb
    simp only [drnl_node_labeling, hswap]
    rw [if_neg hcond', hb, ha, drnlRaw_fin_comm, drnlRaw_fin]
    simp only [FV.isNan, Bool.false_eq_true, if_false, FV.toLong]
    rw [← Nat.cast_add a b, intDiv_natCast, intMod_natCast, ← Nat.cast_min]

/-- The 3-node path graph 0 - 1 - 2 with unit weights, used as a concrete
input for witnesses and counterexamples. -/
def pathA3 : Nat → Nat → Int := fun i j =>
  if (i = 0 ∧ j = 1) ∨ (i = 1 ∧ j = 0) ∨ (i = 1 ∧ j = 2) ∨ (i = 2 ∧ j = 1) then 1 else 0

/-- Witness for C1 on the path 0 - 1 - 2 with src = 0, dst = 2: node 1 has
both deleted-graph distances equal to 1 and drnl label 2. -/
theorem drnl_label_formula_witness :
    claimDist2src pathA3 3 0 2 1 = FV.fin 1 ∧ claimDist2dst pathA3 3 0 2 1 = FV.fin 1 ∧
      drnl_node_labeling pathA3 3 0 2 1 =
        1 + ((min 1 1 : Nat) : Int) +
          (((1 + 1) / 2 : Nat) : Int) *
            ((((1 + 1) / 2 : Nat) : Int) + (((1 + 1) % 2 : Nat) : Int) - 1) :=
  ⟨by decide, by decide,
    drnl_label_formula pathA3 3 0 2 1 1 1 (by decide) (by decide) (by decide)
      (by decide) (by decide)⟩

/-- neighbors(fringe, A) with outgoing=True (utils.py lines 27-38): the set
of column indices of nonzero entries in the rows of the fringe. -/
def nbrsOut (A : Nat → Nat → Int) (n : Nat) (S : Finset Nat) : Finset Nat :=
  (Finset.range n).filter (fun j => ∃ i ∈ S, A i j ≠ 0)

/-- neighbors(fringe, A_csc, False): row indices of nonzero entries in the
columns of the fringe; A_csc stores the same matrix as A. -/
def nbrsIn (A : Nat → Nat → Int) (n : Nat) (S : Finset Nat) : Finset Nat :=
  (Finset.range n).filter (fun j => ∃ i ∈ S, A j i ≠ 0)

/-- The fringe expansion of one BFS hop (utils.py lines 51-56): outgoing
neighbors only when undirected, union of outgoing and incoming when
directed. -/
def fringeNbrs (A : Nat → Nat → Int) (n : Nat) (directed : Bool) (S : Finset Nat) : Finset Nat :=
  if directed then nbrsOut A n S ∪ nbrsIn A n S else nbrsOut A n S

/-- A deterministic enumeration of a python set of node ids (ascending);
python set iteration order is unspecified, this fixes one resolution. -/
def enumFinset (n : Nat) (S : Finset Nat) : List Nat :=
  (List.range n).filter (fun x => decide (x ∈ S))

/-- fringe = random.sample(fringe, int(sample_ratio * len(fringe))) when
sample_ratio < 1.0 (utils.py lines 59-60); the random choice is abstracted
by the sampler parameter. -/
def ratioSample (ratio : ℚ) (samp : Finset Nat → Nat → Finset Nat) (f : Finset Nat) : Finset Nat :=
  if ratio < 1 then samp f ((ratio * (f.card : ℚ)).floor.toNat) else f

/-- fringe = random.sample(fringe, max_nodes_per_hop) when the cap is set
and exceeded (utils.py lines 61-63). -/
def capSample (mph : Option Nat) (samp : Finset Nat → Nat → Finset Nat) (f : Finset Nat) : Finset Nat :=
  match mph with
  | some m => if m < f.card then samp f m else f
  | none => f

/-- The mutable state of the BFS loop of k_hop_subgraph. -/
structure KState where
  nodes : List Nat
  dists : List Nat
  visited : Finset Nat
  fringe : Finset Nat
  halted : Bool

/-- One iteration of the BFS loop (utils.py lines 50-67) at hop distance d:
expand the fringe, subtract visited, union the PRE-subsampling fringe into
visited (line 58 runs before the subsampling of lines 59-63), subsample,
then either break on an empty fringe or append the fringe to nodes/dists. -/
def hopStep (A : Nat → Nat → Int) (n : Nat) (directed : Bool) (ratio : ℚ)
    (mph : Option Nat) (samp : Finset Nat → Nat → Finset Nat)
    (s : KState) (d : Nat) : KState :=
  if s.halted then s
  else
    let f1 := fringeNbrs A n directed s.fringe \ s.visited
    let f3 := capSample mph samp (ratioSample ratio samp f1)
    if f3.card = 0 then ⟨s.nodes, s.dists, s.visited ∪ f1, f3, true⟩
    else
      ⟨s.nodes ++ enumFinset n f3, s.dists ++ List.replicate (enumFinset n f3).length d,
        s.visited ∪ f1, f3, false⟩

/-- The initial state: nodes = [src, dst], dists = [0, 0],
visited = fringe = {src, dst} (utils.py lines 45-49). -/
def kHopInit (src dst : Nat) : KState :=
  ⟨[src, dst], [0, 0], {src, dst}, {src, dst}, false⟩

/-- The full BFS loop, for dist in range(1, num_hops + 1). -/
def kHopLoop (src dst numHops : Nat) (A : Nat → Nat → Int) (n : Nat) (directed : Bool)
    (ratio : ℚ) (mph : Option Nat) (samp : Finset Nat → Nat → Finset Nat) : KState :=
  (List.range' 1 numHops).foldl (hopStep A n directed ratio mph samp) (kHopInit src dst)

/-- subgraph = A[nodes, :][:, nodes] (utils.py line 69): the node-induced
submatrix in discovery order. -/
def sliceMat (A : Nat → Nat → Int) (nodes : List Nat) : Nat → Nat → Int :=
  fun i j => A (nodes.getD i 0) (nodes.getD j 0)

/-- subgraph[0, 1] = 0; subgraph[1, 0] = 0 (utils.py lines 71-73). -/
def zeroTargetLink (M : Nat → Nat → Int) : Nat → Nat → Int :=
  fun i j => if (i = 0 ∧ j = 1) ∨ (i = 1 ∧ j = 0) then 0 else M i j

/-- The value returned by the BFS path of k_hop_subgraph (node features are
not modeled; no claim concerns them). -/
structure KHopResult where
  nodes : List Nat
  subgraph : Nat → Nat → Int
  dists : List Nat
  y : Int

/-- The BFS path of k_hop_subgraph (utils.py lines 41-78). -/
def k_hop_subgraph (src dst numHops : Nat) (A : Nat → Nat → Int) (n : Nat)
    (ratio : ℚ) (mph : Option Nat) (y : Int) (directed : Bool)
    (samp : Finset Nat → Nat → Finset Nat) : KHopResult :=
  let st := kHopLoop src dst numHops A n directed ratio mph samp
  ⟨st.nodes, zeroTargetLink (sliceMat A st.nodes), st.dists, y⟩

/-- u, v, r = ssp.find(adj) (utils.py line 238): the nonzero entries of the
induced matrix of local size k, with their values. -/
def findEntries (M : Nat → Nat → Int) (k : Nat) : List (Nat × Nat × Int) :=
  (List.range k).flatMap (fun i =>
    (List.range k).filterMap (fun j => if M i j ≠ 0 then some (i, j, M i j) else none))

/-- The number of edges of the built sample: one per nonzero entry. -/
def numEdges (M : Nat → Nat → Int) (k : Nat) : Nat := (findEntries M k).length

/-- The target-link mask filtering of the random-walk path (utils.py lines
108-111): keep an edge e iff (e0 ≠ src or e1 ≠ dst) and (e0 ≠ dst or
e1 ≠ src). -/
def rwMaskFilter (edges : List (Nat × Nat)) (src dst : Nat) : List (Nat × Nat) :=
  edges.filter (fun e =>
    (decide (e.1 ≠ src) || decide (e.2 ≠ dst)) && (decide (e.1 ≠ dst) || decide (e.2 ≠ src)))

/-- edge_weight = torch.ones(sub_edge_index_revised.shape[-1]) of the
random-walk record (utils.py line 126). -/
def rwEdgeWeight (edges : List (Nat × Nat)) (src dst : Nat) : List Int :=
  List.replicate (rwMaskFilter edges src dst).length 1

/-- Claim C2: after extraction the target link is absent in both directions:
on the BFS path the induced matrix entries (0,1) and (1,0) are zero, and on
the random-walk path the mask-filtered edge index contains neither
(local src, local dst) nor (local dst, local src). -/
theorem target_link_removed (A : Nat → Nat → Int) (n src dst numHops : Nat)
    (ratio : ℚ) (mph : Option Nat) (y : Int) (directed : Bool)
    (samp : Finset Nat → Nat → Finset Nat)
    (edges : List (Nat × Nat)) (ls ld : Nat)
    (hedge : A src dst ≠ 0) :
    (k_hop_subgraph src dst numHops A n ratio mph y directed samp).subgraph 0 1 = 0 ∧
    (k_hop_subgraph src dst numHops A n ratio mph y directed samp).subgraph 1 0 = 0 ∧
    (ls, ld) ∉ rwMaskFilter edges ls ld ∧
    (ld, ls) ∉ rwMaskFilter edges ls ld := by
  refine ⟨by simp [k_hop_subgraph, zeroTargetLink], by simp [k_hop_subgraph, zeroTargetLink],
    ?_, ?_⟩ <;>
  · intro hmem
    simp [rwMaskFilter, List.mem_filter] at hmem

/-- Witness for C2 on the path graph 0 - 1 - 2 with the existing edge
(0, 1). -/
theorem target_link_removed_witness :
    pathA3 0 1 ≠ 0 ∧
    ((k_hop_subgraph 0 1 1 pathA3 3 1 none 1 false (fun S _ => S)).subgraph 0 1 = 0 ∧
      (k_hop_subgraph 0 1 1 pathA3 3 1 none 1 false (fun S _ => S)).subgraph 1 0 = 0 ∧
      (0, 1) ∉ rwMaskFilter [(0, 1), (1, 2)] 0 1 ∧
      (1, 0) ∉ rwMaskFilter [(0, 1), (1, 2)] 0 1) :=
  ⟨by decide,
    target_link_removed pathA3 3 0 1 1 1 none 1 false (fun S _ => S) [(0, 1), (1, 2)] 0 1
      (by decide)⟩

/-- The star graph on 4 nodes: node 0 adjacent to 1, 2 and 3. -/
def starA4 : Nat → Nat → Int := fun i j =>
  if (i = 0 ∧ (j = 1 ∨ j = 2 ∨ j = 3)) ∨ (j = 0 ∧ (i = 1 ∨ i = 2 ∨ i = 3)) then 1 else 0

/-- A concrete admissible sampler: keep the k smallest elements.  Its output
is one possible outcome of random.sample (a subset of the requested size
when enough elements exist). -/
def takeLowSamp (n : Nat) (S : Finset Nat) (k : Nat) : Finset Nat :=
  ((enumFinset n S).take k).toFinset

lemma takeLowSamp_subset (n : Nat) (S : Finset Nat) (k : Nat) : takeLowSamp n S k ⊆ S := by
  intro x hx
  unfold takeLowSamp at hx
  rw [List.mem_toFinset] at hx
  have hx' : x ∈ enumFinset n S := List.mem_of_mem_take hx
  unfold enumFinset at hx'
  rw [List.mem_filter] at hx'
  exact of_decide_eq_true hx'.2

/-- Counterexample to C3: on the star graph with src = 0, dst = 1 and
max_nodes_per_hop = 1, the first hop's fringe {2, 3} is capped to {2}, node
3 is excluded from the appended fringe and from nodes — yet 3 is already in
visited, because line 58 unions the pre-subsampling fringe into visited
before the subsampling of lines 59-63.  The claim asserts the excluded node
is not in visited. -/
theorem bfs_visited_order_counterexample :
    (hopStep starA4 4 false 1 (some 1) (takeLowSamp 4) (kHopInit 0 1) 1).nodes = [0, 1, 2] ∧
    (hopStep starA4 4 false 1 (some 1) (takeLowSamp 4) (kHopInit 0 1) 1).fringe = {2} ∧
    3 ∉ (hopStep starA4 4 false 1 (some 1) (takeLowSamp 4) (kHopInit 0 1) 1).nodes ∧
    3 ∈ (hopStep starA4 4 false 1 (some 1) (takeLowSamp 4) (kHopInit 0 1) 1).visited := by
  decide

/-- Amended C3: at each hop the code subtracts visited from the expanded
fringe, then unions this pre-subsampling fringe into visited, and only then
subsamples (ratio, then cap); consequently the appended fringe is contained
in visited and a node excluded by subsampling is already in visited, hence
never rediscoverable at a later hop. -/
theorem bfs_visited_order (A : Nat → Nat → Int) (n : Nat) (directed : Bool)
    (ratio : ℚ) (mph : Option Nat) (samp : Finset Nat → Nat → Finset Nat)
    (s : KState) (d : Nat)
    (hsamp : ∀ S k, samp S k ⊆ S) (hs : s.halted = false) :
    (hopStep A n directed ratio mph samp s d).visited =
        s.visited ∪ (fringeNbrs A n directed s.fringe \ s.visited) ∧
      (hopStep A n directed ratio mph samp s d).fringe ⊆
        (hopStep A n directed ratio mph samp s d).visited := by
  have hratio : ∀ f : Finset Nat, ratioSample ratio samp f ⊆ f := by
    intro f
    unfold ratioSample
    split
    · exact hsamp f _
    · exact Finset.Subset.refl f
  have hcap : ∀ f : Finset Nat, capSample mph samp f ⊆ f := by
    intro f
    unfold capSample
    rcases mph with _ | m
    · exact Finset.Subset.refl f
    · dsimp only
      split
      · exact hsamp f _
      · exact Finset.Subset.refl f
  have hf3 : capSample mph samp
      (ratioSample ratio samp (fringeNbrs A n directed s.fringe \ s.visited)) ⊆
      fringeNbrs A n directed s.fringe \ s.visited :=
    (hcap _).trans (hratio _)
  unfold hopStep
  rw [if_neg (by simp [hs])]
  dsimp only
  constructor
  · split <;> rfl
  · split
    · exact hf3.trans Finset.subset_union_right
    · exact hf3.trans Finset.subset_union_right

/-- Witness for the amended C3 at the concrete star-graph instance. -/
theorem bfs_visited_order_witness :
    (hopStep starA4 4 false 1 (some 1) (takeLowSamp 4) (kHopInit 0 1) 1).visited =
        (kHopInit 0 1).visited ∪
          (fringeNbrs starA4 4 false (kHopInit 0 1).fringe \ (kHopInit 0 1).visited) ∧
      (hopStep starA4 4 false 1 (some 1) (takeLowSamp 4) (kHopInit 0 1) 1).fringe ⊆
        (hopStep starA4 4 false 1 (some 1) (takeLowSamp 4) (kHopInit 0 1) 1).visited :=
  bfs_visited_order starA4 4 false 1 (some 1) (takeLowSamp 4) (kHopInit 0 1) 1
    (takeLowSamp_subset 4) rfl

/-- A 2-node graph with the edge (0, 1) and a self-loop at node 0. -/
def loopA2 : Nat → Nat → Int := fun i j =>
  if i = 0 ∧ j = 0 then 1 else if (i = 0 ∧ j = 1) ∨ (i = 1 ∧ j = 0) then 1 else 0

/-- Counterexample to C8: with num_hops = 0 on a graph carrying a self-loop
at src, the extracted subgraph has the 2 nodes [src, dst] but 1 edge (the
self-loop survives the target-link zeroing), not 0 edges. -/
theorem num_hops_zero_counterexample :
    (k_hop_subgraph 0 1 0 loopA2 2 1 none 1 false (takeLowSamp 2)).nodes = [0, 1] ∧
    numEdges ((k_hop_subgraph 0 1 0 loopA2 2 1 none 1 false (takeLowSamp 2)).subgraph) 2 = 1 := by
  decide

/-- Amended C8: with num_hops = 0 the BFS extractor always returns exactly
the two nodes [src, dst]; the only induced entries that can survive the
target-link zeroing are the two diagonal self-loop entries, so whenever A
has no self-loop at src or dst the subgraph has exactly 0 edges. -/
theorem num_hops_zero_subgraph (A : Nat → Nat → Int) (n src dst : Nat) (ratio : ℚ)
    (mph : Option Nat) (y : Int) (directed : Bool)
    (samp : Finset Nat → Nat → Finset Nat)
    (hsrc : A src src = 0) (hdst : A dst dst = 0) :
    (k_hop_subgraph src dst 0 A n ratio mph y directed samp).nodes = [src, dst] ∧
    numEdges ((k_hop_subgraph src dst 0 A n ratio mph y directed samp).subgraph) 2 = 0 := by
  constructor
  · rfl
  · have h00 : zeroTargetLink (sliceMat A [src, dst]) 0 0 = 0 := by
      simp [zeroTargetLink, sliceMat, hsrc]
    have h01 : zeroTargetLink (sliceMat A [src, dst]) 0 1 = 0 := by
      simp [zeroTargetLink]
    have h10 : zeroTargetLink (sliceMat A [src, dst]) 1 0 = 0 := by
      simp [zeroTargetLink]
    have h11 : zeroTargetLink (sliceMat A [src, dst]) 1 1 = 0 := by
      simp [zeroTargetLink, sliceMat, hdst]
    have hrange : List.range 2 = [0, 1] := rfl
    simp [numEdges, findEntries, k_hop_subgraph, kHopLoop, kHopInit, hrange, h00, h01, h10, h11]

/-- Witness for the amended C8: the path graph has no self-loops, and the
num_hops = 0 extraction around its edge (0, 1) has 2 nodes and 0 edges. -/
theorem num_hops_zero_subgraph_witness :
    pathA3 0 0 = 0 ∧ pathA3 1 1 = 0 ∧
    ((k_hop_subgraph 0 1 0 pathA3 3 1 none 1 false (takeLowSamp 3)).nodes = [0, 1] ∧
      numEdges ((k_hop_subgraph 0 1 0 pathA3 3 1 none 1 false (takeLowSamp 3)).subgraph) 2 = 0) :=
  ⟨by decide, by decide,
    num_hops_zero_subgraph pathA3 3 0 1 1 none 1 false (takeLowSamp 3) (by decide) (by decide)⟩

/-- The two matrix objects visible during one BFS extraction: the shared
global adjacency A and the local variable holding the induced subgraph. -/
structure MatStore where
  glob : Nat → Nat → Int
  sub : Nat → Nat → Int

/-- subgraph = A[nodes, :][:, nodes] (utils.py line 69): scipy fancy
indexing materializes a fresh matrix, so the local name is bound to a copy
and the shared matrix is only read. -/
def sliceAssign (nodes : List Nat) (st : MatStore) : MatStore :=
  { st with sub := sliceMat st.glob nodes }

/-- subgraph[i, j] = v (utils.py lines 72-73): an in-place write through the
local reference, which aliases the fresh copy, not the shared matrix. -/
def subAssign (i j : Nat) (v : Int) (st : MatStore) : MatStore :=
  { st with sub := fun a b => if a = i ∧ b = j then v else st.sub a b }

/-- The BFS path of k_hop_subgraph acting on the matrix store: read-only
BFS over glob, slice into the local subgraph, zero the two target
entries in place on the local copy. -/
def kHopStore (src dst numHops : Nat) (n : Nat) (ratio : ℚ) (mph : Option Nat)
    (directed : Bool) (samp : Finset Nat → Nat → Finset Nat) (st : MatStore) : MatStore :=
  let nodes := (kHopLoop src dst numHops st.glob n directed ratio mph samp).nodes
  subAssign 1 0 0 (subAssign 0 1 0 (sliceAssign nodes st))

lemma kHopStore_glob (src dst numHops : Nat) (n : Nat) (ratio : ℚ) (mph : Option Nat)
    (directed : Bool) (samp : Finset Nat → Nat → Finset Nat) (st : MatStore) :
    (kHopStore src dst numHops n ratio mph directed samp st).glob = st.glob := rfl

lemma kHopStore_sub (src dst numHops : Nat) (n : Nat) (ratio : ℚ) (mph : Option Nat)
    (directed : Bool) (samp : Finset Nat → Nat → Finset Nat) (st : MatStore) :
    (kHopStore src dst numHops n ratio mph directed samp st).sub =
      zeroTargetLink (sliceMat st.glob
        (kHopLoop src dst numHops st.glob n directed ratio mph samp).nodes) := by
  funext a b
  simp only [kHopStore, subAssign, sliceAssign, zeroTargetLink]
  by_cases h1 : a = 1 ∧ b = 0
  · simp [h1]
  · by_cases h2 : a = 0 ∧ b = 1
    · simp [h1, h2]
    · have : ¬ ((a = 0 ∧ b = 1) ∨ (a = 1 ∧ b = 0)) := by tauto
      simp [h1, h2, this]

/-- Claim C9: extraction is read-only with respect to the shared adjacency:
the global matrix after a BFS extraction (including the target-link zeroing,
which writes only to the freshly sliced copy) equals the matrix before it,
the local result is exactly the zeroed slice of the ORIGINAL matrix, and
repeating the extraction on the post-call store reproduces the same store,
so repeated extractions over the same A are safe. -/
theorem extraction_read_only (src dst numHops : Nat) (n : Nat) (ratio : ℚ)
    (mph : Option Nat) (directed : Bool) (samp : Finset Nat → Nat → Finset Nat)
    (st : MatStore) :
    (kHopStore src dst numHops n ratio mph directed samp st).glob = st.glob ∧
    (kHopStore src dst numHops n ratio mph directed samp st).sub =
      zeroTargetLink (sliceMat st.glob
        (kHopLoop src dst numHops st.glob n directed ratio mph samp).nodes) ∧
    kHopStore src dst numHops n ratio mph directed samp
        (kHopStore src dst numHops n ratio mph directed samp st) =
      kHopStore src dst numHops n ratio mph directed samp st := by
  refine ⟨rfl, kHopStore_sub src dst numHops n ratio mph directed samp st, ?_⟩
  have hmk : ∀ s : MatStore, kHopStore src dst numHops n ratio mph directed samp s =
      ⟨s.glob, zeroTargetLink (sliceMat s.glob
        (kHopLoop src dst numHops s.glob n directed ratio mph samp).nodes)⟩ := by
    intro s
    have h : kHopStore src dst numHops n ratio mph directed samp s =
        ⟨(kHopStore src dst numHops n ratio mph directed samp s).glob,
          (kHopStore src dst numHops n ratio mph directed samp s).sub⟩ := rfl
    rw [h, kHopStore_glob, kHopStore_sub]
  rw [hmk st, hmk ⟨st.glob, zeroTargetLink (sliceMat st.glob
    (kHopLoop src dst numHops st.glob n directed ratio mph samp).nodes)⟩]

/-- dist[dist > max_dist] = max_dist (utils.py lines 204, 230): IEEE
comparison, so +inf is clamped to max_dist and NaN is left alone. -/
def deClamp (maxDist : Int) (x : FV) : FV :=
  if x.gtC maxDist then FV.fin maxDist else x

/-- dist[torch.isnan(dist)] = max_dist + 1 (utils.py lines 205, 231). -/
def deNanFix (maxDist : Int) (x : FV) : FV :=
  if x.isNan then FV.fin (maxDist + 1) else x

/-- de_node_labeling (utils.py lines 196-207): distances from src and dst
on the full matrix (no node deletion), clamped at max_dist, NaN to
max_dist + 1, transposed to one pair per node, cast to long. -/
def de_node_labeling (A : Nat → Nat → Int) (n src0 dst0 : Nat) (maxDist : Int) :
    Nat → Int × Int :=
  fun i =>
    let src := (drnlSwap src0 dst0).1
    let dst := (drnlSwap src0 dst0).2
    ((deNanFix maxDist (deClamp maxDist (spdistF A n src i))).toLong,
      (deNanFix maxDist (deClamp maxDist (spdistF A n dst i))).toLong)

/-- de_plus_node_labeling (utils.py lines 210-233): the same node-deleting
distance arrays as drnl, kept as a raw per-node pair, clamped at max_dist,
the NaN fix afterwards (no NaN can remain: infinities were clamped), cast
to long. -/
def de_plus_node_labeling (A : Nat → Nat → Int) (n src0 dst0 : Nat) (maxDist : Int) :
    Nat → Int × Int :=
  fun i =>
    let src := (drnlSwap src0 dst0).1
    let dst := (drnlSwap src0 dst0).2
    ((deNanFix maxDist (deClamp maxDist (dist2srcArr A n src dst i))).toLong,
      (deNanFix maxDist (deClamp maxDist (dist2dstArr A n src dst i))).toLong)

/-- z = adj.sum(axis=0) with z[z > 100] = 100 (utils.py lines 257-259):
weighted column sums capped at 100. -/
def degreeLabel (A : Nat → Nat → Int) (n : Nat) : Nat → Int :=
  fun j =>
    let s := (Finset.range n).sum (fun i => A i j)
    if 100 < s then 100 else s

/-- The label output of construct_pyg_graph: one scalar per node, or one
2-vector per node for the distance-encoding policies. -/
inductive ZOut where
  | scalars : (Nat → Int) → ZOut
  | pairs : (Nat → Int × Int) → ZOut

def zScalarAt (z : ZOut) (i : Nat) : Option Int :=
  match z with
  | .scalars f => some (f i)
  | .pairs _ => none

def zPairAt (z : ZOut) (i : Nat) : Option (Int × Int) :=
  match z with
  | .scalars _ => none
  | .pairs f => some (f i)

/-- The node-label dispatch of construct_pyg_graph (utils.py lines
247-261) on the induced adjacency of local size n with the BFS
hop-distance list: the string-keyed if/elif chain whose final else silently
yields the all-zeros labeling. -/
def constructZ (adjM : Nat → Nat → Int) (n : Nat) (dists : List Nat) (lbl : String) : ZOut :=
  if lbl = "drnl" then .scalars (drnl_node_labeling adjM n 0 1)
  else if lbl = "hop" then .scalars (fun i => (dists.getD i 0 : Int))
  else if lbl = "zo" then .scalars (fun i => if dists.getD i 0 = 0 then 1 else 0)
  else if lbl = "de" then .pairs (de_node_labeling adjM n 0 1 3)
  else if lbl = "de+" then .pairs (de_plus_node_labeling adjM n 0 1 100)
  else if lbl = "degree" then .scalars (degreeLabel adjM n)
  else .scalars (fun _ => 0)

lemma spdist_self (A : Nat → Nat → Int) (m s : Nat) (hm : 0 < m) :
    spdist A m s s = some 0 := by
  obtain ⟨m', rfl⟩ : ∃ m', m = m' + 1 := ⟨m - 1, by omega⟩
  unfold spdist
  rw [List.range_succ_eq_map]
  have hb : s ∈ ball A (m' + 1) s 0 := by
    simp [ball]
  simp [List.find?_cons, hb]

/-- Counterexample to C4: running the pipeline (1-hop BFS extraction on the
path 0 - 1 - 2 around the pair (0, 1), then the labeler) with the
distance-based policy hop gives z[0] = 0, not the claimed minimal label
1 (the hop distance of src is 0). -/
theorem anchor_label_counterexample :
    zScalarAt
      (constructZ ((k_hop_subgraph 0 1 1 pathA3 3 1 none 1 false (takeLowSamp 3)).subgraph) 3
        ((k_hop_subgraph 0 1 1 pathA3 3 1 none 1 false (takeLowSamp 3)).dists) "hop") 0 =
      some 0 := by
  decide

/-- Amended C4: the anchor labels z[0], z[1] (src, dst) agree for each
distance-based policy but their common value is policy-specific, not always
1: it is 1 for drnl and zo, 0 for hop, and the pair (0, 0) for de+ (the de
policy produces per-node pairs (0, d) and (d, 0) and has no common anchor
value in general).  Stated for any induced adjacency of local size n ≥ 2
and any hop-distance list starting 0, 0, as the extractor produces. -/
theorem anchor_labels (adjM : Nat → Nat → Int) (n : Nat) (dists : List Nat)
    (hn : 2 ≤ n) (h0 : dists.getD 0 0 = 0) (h1 : dists.getD 1 0 = 0) :
    (zScalarAt (constructZ adjM n dists "drnl") 0 = some 1 ∧
      zScalarAt (constructZ adjM n dists "drnl") 1 = some 1) ∧
    (zScalarAt (constructZ adjM n dists "zo") 0 = some 1 ∧
      zScalarAt (constructZ adjM n dists "zo") 1 = some 1) ∧
    (zScalarAt (constructZ adjM n dists "hop") 0 = some 0 ∧
      zScalarAt (constructZ adjM n dists "hop") 1 = some 0) ∧
    (zPairAt (constructZ adjM n dists "de+") 0 = some (0, 0) ∧
      zPairAt (constructZ adjM n dists "de+") 1 = some (0, 0)) := by
  have hself : spdistF (delNode adjM 1) (n - 1) 0 0 = FV.fin 0 := by
    unfold spdistF
    rw [spdist_self _ _ _ (by omega)]
    rfl
  have hself' : spdistF (delNode adjM 0) (n - 1) 0 0 = FV.fin 0 := by
    unfold spdistF
    rw [spdist_self _ _ _ (by omega)]
    rfl
  refine ⟨⟨rfl, rfl⟩, ⟨?_, ?_⟩, ⟨?_, ?_⟩, ⟨?_, ?_⟩⟩
  · show some (if dists.getD 0 0 = 0 then (1 : Int) else 0) = some 1
    rw [h0]
    rfl
  · show some (if dists.getD 1 0 = 0 then (1 : Int) else 0) = some 1
    rw [h1]
    rfl
  · show some ((dists.getD 0 0 : Int)) = some 0
    rw [h0]
    rfl
  · show some ((dists.getD 1 0 : Int)) = some 0
    rw [h1]
    rfl
  · have e1 : dist2srcArr adjM n 0 1 0 = FV.fin 0 := by
      unfold dist2srcArr insert0
      simpa using hself
    show some ((deNanFix 100 (deClamp 100 (dist2srcArr adjM n 0 1 0))).toLong,
        (deNanFix 100 (deClamp 100 (dist2dstArr adjM n 0 1 0))).toLong) = some (0, 0)
    rw [e1]
    rfl
  · have e2 : dist2dstArr adjM n 0 1 1 = FV.fin 0 := by
      unfold dist2dstArr insert0
      simpa using hself'
    show some ((deNanFix 100 (deClamp 100 (dist2srcArr adjM n 0 1 1))).toLong,
        (deNanFix 100 (deClamp 100 (dist2dstArr adjM n 0 1 1))).toLong) = some (0, 0)
    rw [e2]
    rfl

/-- Witness for the amended C4 at the concrete 1-hop extraction on the path
graph around (0, 1). -/
theorem anchor_labels_witness :
    (2 ≤ 3 ∧ ([0, 0, 1] : List Nat).getD 0 0 = 0 ∧ ([0, 0, 1] : List Nat).getD 1 0 = 0) ∧
    ((zScalarAt (constructZ pathA3 3 [0, 0, 1] "drnl") 0 = some 1 ∧
        zScalarAt (constructZ pathA3 3 [0, 0, 1] "drnl") 1 = some 1) ∧
      (zScalarAt (constructZ pathA3 3 [0, 0, 1] "zo") 0 = some 1 ∧
        zScalarAt (constructZ pathA3 3 [0, 0, 1] "zo") 1 = some 1) ∧
      (zScalarAt (constructZ pathA3 3 [0, 0, 1] "hop") 0 = some 0 ∧
        zScalarAt (constructZ pathA3 3 [0, 0, 1] "hop") 1 = some 0) ∧
      (zPairAt (constructZ pathA3 3 [0, 0, 1] "de+") 0 = some (0, 0) ∧
        zPairAt (constructZ pathA3 3 [0, 0, 1] "de+") 1 = some (0, 0))) :=
  ⟨⟨by decide, by decide, by decide⟩,
    anchor_labels pathA3 3 [0, 0, 1] (by decide) (by decide) (by decide)⟩

/-- Counterexample to C5: the Sample Builder invoked with the unknown
labeling policy name bogus does not fail; it silently produces the
all-zeros label vector, indistinguishable from the none policy. -/
theorem unknown_label_counterexample :
    zScalarAt (constructZ pathA3 3 [0, 0] "bogus") 0 = some 0 ∧
    zScalarAt (constructZ pathA3 3 [0, 0] "bogus") 0 =
      zScalarAt (constructZ pathA3 3 [0, 0] "none") 0 := by
  decide

/-- Amended C5: any labeling policy name outside {drnl, hop, zo, de, de+,
degree} falls through the if/elif chain into the silent else branch, which
yields the all-zeros scalar labeling (the none behaviour); no error is
raised. -/
theorem unknown_label_defaults_to_zeros (adjM : Nat → Nat → Int) (n : Nat)
    (dists : List Nat) (lbl : String)
    (h1 : lbl ≠ "drnl") (h2 : lbl ≠ "hop") (h3 : lbl ≠ "zo") (h4 : lbl ≠ "de")
    (h5 : lbl ≠ "de+") (h6 : lbl ≠ "degree") :
    constructZ adjM n dists lbl = ZOut.scalars (fun _ => 0) := by
  unfold constructZ
  rw [if_neg h1, if_neg h2, if_neg h3, if_neg h4, if_neg h5, if_neg h6]

/-- Witness for the amended C5 at the unknown name bogus. -/
theorem unknown_label_defaults_to_zeros_witness :
    constructZ pathA3 3 [0, 0] "bogus" = ZOut.scalars (fun _ => 0) :=
  unknown_label_defaults_to_zeros pathA3 3 [0, 0] "bogus" (by decide) (by decide)
    (by decide) (by decide) (by decide) (by decide)

/-- The graph on 3 nodes with the single edge (0, 1); node 2 is
disconnected. -/
def discA3 : Nat → Nat → Int := fun i j =>
  if (i = 0 ∧ j = 1) ∨ (i = 1 ∧ j = 0) then 1 else 0

/-- Counterexample to C7: on the subgraph with the isolated node 2 and the
pair (0, 1), drnl does normalize the unreachable node to 0, but de+ labels
it (100, 100) — the infinite distances are clamped to max_dist = 100 by the
dist > max_dist step, not normalized to 0. -/
theorem nan_label_counterexample :
    drnl_node_labeling discA3 3 0 1 2 = 0 ∧
    de_plus_node_labeling discA3 3 0 1 100 2 = (100, 100) := by
  decide

/-- Amended C7: for a node i unreachable from the anchors (both deleted
-graph distances infinite), drnl yields the label 0 (the infinities combine
to NaN, which is zeroed), while de+ yields (max_dist, max_dist) = (100,
100): the infinity exceeds max_dist and is clamped before the NaN check
ever runs. -/
theorem unreachable_label_normalization (A : Nat → Nat → Int) (n src dst i : Nat)
    (hlt : src < dst) (hisrc : i ≠ src) (hidst : i ≠ dst)
    (hs : dist2srcArr A n src dst i = FV.inf)
    (hd : dist2dstArr A n src dst i = FV.inf) :
    drnl_node_labeling A n src dst i = 0 ∧
    de_plus_node_labeling A n src dst 100 i = (100, 100) := by
  have hswap : drnlSwap src dst = (src, dst) := by
    unfold drnlSwap
    rw [if_neg (by omega : ¬ src > dst)]
  have hcond : ¬ (i = src ∨ i = dst) := by
    rintro (rfl | rfl) <;> [exact hisrc rfl; exact hidst rfl]
  constructor
  · simp only [drnl_node_labeling, hswap]
    rw [if_neg hcond, hs, hd]
    rfl
  · simp only [de_plus_node_labeling, hswap]
    rw [hs, hd]
    rfl

/-- Witness for the amended C7 at the concrete disconnected graph. -/
theorem unreachable_label_normalization_witness :
    ((0 : Nat) < 1 ∧ (2 : Nat) ≠ 0 ∧ (2 : Nat) ≠ 1 ∧
      dist2srcArr discA3 3 0 1 2 = FV.inf ∧ dist2dstArr discA3 3 0 1 2 = FV.inf) ∧
    (drnl_node_labeling discA3 3 0 1 2 = 0 ∧
      de_plus_node_labeling discA3 3 0 1 100 2 = (100, 100)) :=
  ⟨⟨by decide, by decide, by decide, by decide, by decide⟩,
    unreachable_label_normalization discA3 3 0 1 2 (by decide) (by decide) (by decide)
      (by decide) (by decide)⟩

/-- rw_kwargs construction at the configuration layer (seal_link_pred.py
lines 652-656): the walk-parameter dict (here: the optional rw_m value that
SEALDataset.process later reads back via .get) is populated only when both
m and M are nonzero (`if args.m and args.M`); argparse defaults both to
0. -/
def rwConfigM (m M : Nat) : Option Nat :=
  if m ≠ 0 ∧ M ≠ 0 then some m else none

/-- The extraction dispatch (extract_enclosing_subgraphs, utils.py line
355, and SEALDynamicDataset.get): `if not rw_kwargs['rw_m']` selects the
BFS path; the random-walk branch runs only when rw_m is present and
nonzero (python truthiness of Optional[int]). -/
def usesRwPath (m M : Nat) : Bool :=
  match rwConfigM m M with
  | none => false
  | some v => decide (v ≠ 0)

/-- Claim C6: with walk length m = 0 or walk count M = 0 (argparse defaults
cover the missing-parameter case), the pipeline never enters the
random-walk extraction branch: the configuration layer leaves the walk
parameters unset and the dispatch takes the BFS path; in particular M = 0
with m > 0 still takes the BFS path. -/
theorem rw_config_guard (m M : Nat) (h : m = 0 ∨ M = 0) : usesRwPath m M = false := by
  rcases h with rfl | rfl
  · rfl
  · unfold usesRwPath rwConfigM
    rw [if_neg (by omega : ¬ (m ≠ 0 ∧ (0 : Nat) ≠ 0))]

/-- Witness for C6 at m = 7, M = 0: the random-walk branch is not taken. -/
theorem rw_config_guard_witness : usesRwPath 7 0 = false :=
  rw_config_guard 7 0 (Or.inr rfl)

/-- The weighted graph on 3 nodes: edge (0, 2) with weight 5 and edge
(0, 1) with weight 7. -/
def wA3 : Nat → Nat → Int := fun i j =>
  if (i = 0 ∧ j = 2) ∨ (i = 2 ∧ j = 0) then 5
  else if (i = 0 ∧ j = 1) ∨ (i = 1 ∧ j = 0) then 7 else 0

/-- Claim C10: the random-walk record's edge_weight is torch.ones over the
retained edges — one weight 1 per edge kept by the mask filter, regardless
of any original weights — while the BFS record reads its edge weights off
the nonzero entries of the induced (target-zeroed) matrix, i.e. the
original weights of A at the corresponding global positions. -/
theorem edge_weight_convention (edges : List (Nat × Nat)) (s d : Nat)
    (A : Nat → Nat → Int) (nodes : List Nat) (k : Nat) :
    rwEdgeWeight edges s d = List.replicate (rwMaskFilter edges s d).length 1 ∧
    (∀ w ∈ rwEdgeWeight edges s d, w = 1) ∧
    (∀ e ∈ findEntries (zeroTargetLink (sliceMat A nodes)) k,
        e.2.2 = A (nodes.getD e.1 0) (nodes.getD e.2.1 0) ∧ e.2.2 ≠ 0) := by
  refine ⟨rfl, ?_, ?_⟩
  · intro w hw
    exact List.eq_of_mem_replicate hw
  · intro e he
    simp only [findEntries, List.mem_flatMap, List.mem_filterMap] at he
    obtain ⟨i, hi, j, hj, hij⟩ := he
    by_cases h : zeroTargetLink (sliceMat A nodes) i j ≠ 0
    · rw [if_pos h] at hij
      cases hij
      refine ⟨?_, h⟩
      have hnt : ¬ ((i = 0 ∧ j = 1) ∨ (i = 1 ∧ j = 0)) := by
        intro hc
        exact h (by simp [zeroTargetLink, hc])
      simp [zeroTargetLink, hnt, sliceMat]
    · rw [if_neg h] at hij
      cases hij

/-- Witness for C10: the all-ones weight list of a concrete random-walk
record, and a concrete BFS entry carrying the original weight 5 of wA3. -/
theorem edge_weight_convention_witness :
    ((1 : Int) ∈ rwEdgeWeight [(0, 2), (2, 1)] 0 1 ∧ (1 : Int) = 1) ∧
    ((0, 2, (5 : Int)) ∈ findEntries (zeroTargetLink (sliceMat wA3 [0, 1, 2])) 3 ∧
      ((5 : Int) = wA3 0 2 ∧ (5 : Int) ≠ 0)) :=
  ⟨⟨by decide,
      (edge_weight_convention [(0, 2), (2, 1)] 0 1 wA3 [0, 1, 2] 3).2.1 1 (by decide)⟩,
    ⟨by decide,
      (edge_weight_convention [(0, 2), (2, 1)] 0 1 wA3 [0, 1, 2] 3).2.2 (0, 2, 5) (by decide)⟩⟩
